import Mathlib

/- A shallow embedding of the backtest core in src/qpkg/Trader.py.

   Modelling conventions:
   * Python floats are modelled as real numbers where the statistics need
     exp / log / sqrt (the back_test aggregation pipeline), and as rationals
     in the purely arithmetic scanning helpers.
   * A missing value (NaN in a float column, None in a freshly appended
     statistic row) is modelled as `none : Option _`; the nan-aware numpy
     aggregations skip `none` entries.  Division with a missing operand (or a
     zero denominator, pandas' non-finite result) yields `none`.
   * Dates are abstract natural numbers, instrument codes are strings.
   * The database collaborator (`self._db`) is passed in as a function, and
     charts are passed as explicit lists of bars. -/

namespace Trader

/-! ### Python `max(list)` / `min(list)` over nonempty rational lists -/

def pyMax (l : List ℚ) : ℚ := l.foldl max (l.headD 0)

def pyMin (l : List ℚ) : ℚ := l.foldl min (l.headD 0)

/-- Lines 150-160 of `BackTester.ins_chart_pattern`: the candidate window
`part_chart` is turned into the curve compared against the pattern by
`fr_cht = part_chart * (pat_diff / cht_diff) + min_pat`, where
`pat_diff = max(pattern) - min(pattern)` and
`cht_diff = max(part_chart) - min(part_chart)`. -/
def rescale_window (part_chart pattern : List ℚ) : List ℚ :=
  let pat_diff := pyMax pattern - pyMin pattern
  let cht_diff := pyMax part_chart - pyMin part_chart
  part_chart.map (fun x => x * (pat_diff / cht_diff) + pyMin pattern)

/-! ### `BackTester._trans_pat_to_frpat` (lines 183-194) -/

/-- The list comprehension body of line 186:
`intervals = [p + 1 if i < q else p for i in range(len(pattern) - 1)]`
with `p = (window_size - 1) // (len(pattern) - 1)` and
`q = (window_size - 1) % (len(pattern) - 1)`.  `n` is `len(pattern)`,
`ws` is `window_size`. -/
def frpat_steps (n ws : ℕ) (i : ℕ) : ℕ :=
  if i < (ws - 1) % (n - 1) then (ws - 1) / (n - 1) + 1 else (ws - 1) / (n - 1)

/-- Line 186: the `intervals` list. -/
def trans_intervals (n ws : ℕ) : List ℕ :=
  (List.range (n - 1)).map (frpat_steps n ws)

/-- The nested loop of lines 189-193.  `for i, itv in enumerate(intervals)`
is modelled by carrying the enumeration index `i` explicitly; `cnt` is the
running point counter, and each inner iteration appends the point
`[cnt, pattern[i] + (pattern[i+1] - pattern[i]) * j / itv]` for
`j = 1 .. itv` (here `j` runs over `List.range itv`, shifted by one). -/
def frpatLoop (pattern : List ℚ) : List ℕ → ℕ → ℕ → List (ℕ × ℚ)
  | [], _, _ => []
  | itv :: rest, i, cnt =>
    ((List.range itv).map (fun j =>
      (cnt + j + 1,
       pattern.getD i 0 + (pattern.getD (i + 1) 0 - pattern.getD i 0) * ((j : ℚ) + 1) / (itv : ℚ))))
      ++ frpatLoop pattern rest (i + 1) (cnt + itv)

/-- `BackTester._trans_pat_to_frpat` for patterns of length at least 2
(the loop result prefixed with the initial point `[0, float(pattern[0])]`
of line 187). -/
def trans_pat_to_frpat (pattern : List ℚ) (window_size : ℕ) : List (ℕ × ℚ) :=
  (0, pattern.headD 0) :: frpatLoop pattern (trans_intervals pattern.length window_size) 0 0

/-- Modelled from the spec: the position at which segment `i` starts, i.e.
the number of unit steps assigned to the segments before it. -/
def frpat_offset (n ws i : ℕ) : ℕ := ((List.range i).map (frpat_steps n ws)).sum

/-- Modelled from the spec's wording of `resample` (section 4.1): segment `i`
receives `floor((targetLength-1)/(segments))` steps, or one more for the
first `remainder` segments; point `offset i + j` (for `j = 1 .. steps i`)
linearly interpolates between `pattern[i]` and `pattern[i+1]`. -/
def frpat_spec (pattern : List ℚ) (ws : ℕ) : List (ℕ × ℚ) :=
  (0, pattern.headD 0) ::
    (List.range (pattern.length - 1)).flatMap (fun i =>
      (List.range (frpat_steps pattern.length ws i)).map (fun j =>
        (frpat_offset pattern.length ws i + j + 1,
         pattern.getD i 0 + (pattern.getD (i + 1) 0 - pattern.getD i 0) * ((j : ℚ) + 1) /
           (frpat_steps pattern.length ws i : ℚ))))

/-! ### Error behaviour of `_trans_pat_to_frpat` on short patterns -/

/-- The Python exceptions that matter here.  `ArgumentError` is the custom
exception class declared at line 20 of Trader.py; the other two are the
built-in exceptions raised by unguarded code. -/
inductive PyErr where
  | argumentError
  | zeroDivisionError
  | indexError
deriving DecidableEq

/-- `BackTester._trans_pat_to_frpat` with Python's error behaviour made
explicit.  Line 184 evaluates `(window_size - 1) // (len(pattern) - 1)`:
for a pattern of length 1 the divisor is 0 and Python raises
`ZeroDivisionError` (there is no guard in the source).  For an empty
pattern the divisor is -1 (no error), the `intervals` comprehension over
`range(-1)` is empty, and line 187 then evaluates `pattern[0]`, raising
`IndexError`.  For length at least 2 no operation can fail: every index
used is in range and an interval of 0 steps runs no inner iteration. -/
def trans_pat_to_frpat_checked (pattern : List ℚ) (window_size : ℕ) :
    Except PyErr (List (ℕ × ℚ)) :=
  if pattern.length = 1 then .error .zeroDivisionError
  else if pattern.length = 0 then .error .indexError
  else .ok (trans_pat_to_frpat pattern window_size)

/-! ### Chart bars -/

/-- One row of a chart as returned by the database collaborator; the columns
named at lines 167-168: date, open, close, high, low, volume, fore, inst,
indi.  The flow quantities `fore` / `inst` may be missing (`none`), which in
Python is falsy (None) or fails every comparison (NaN) - in both cases a day
with a missing flow value never qualifies, which is what the model needs. -/
structure Bar where
  date : ℕ
  «open» : ℚ
  close : ℚ
  high : ℚ
  low : ℚ
  volume : ℚ
  fore : Option ℤ
  inst : Option ℤ
  indi : Option ℤ
deriving DecidableEq

/-- Lines 170-175 of `BackTester._choose_chart_price` for a single bar:
start from 0, add each of close/open/high/low whose letter occurs in
`price_opt`, then divide by `len(price_opt)` (the length of the selector
string, not the number of participating fields). -/
def choose_chart_price_bar (b : Bar) (price_opt : List Char) : ℚ :=
  let p0 : ℚ := 0
  let p1 := if 'c' ∈ price_opt then p0 + b.close else p0
  let p2 := if 'o' ∈ price_opt then p1 + b.«open» else p1
  let p3 := if 'h' ∈ price_opt then p2 + b.high else p2
  let p4 := if 'l' ∈ price_opt then p3 + b.low else p3
  p4 / (price_opt.length : ℚ)

/-- `BackTester._choose_chart_price` without the optional rolling-mean
smoothing (`avg_window = None` path): the per-bar composite price series
indexed by date. -/
def choose_chart_price (chart : List Bar) (price_opt : List Char) : List (ℕ × ℚ) :=
  chart.map (fun b => (b.date, choose_chart_price_bar b price_opt))

/-- Modelled from the spec: the list of price fields the selector designates
as participating (a field participates when its letter is a member of the
selector). -/
def participating_fields (b : Bar) (price_opt : List Char) : List ℚ :=
  (if 'c' ∈ price_opt then [b.close] else []) ++
    (if 'o' ∈ price_opt then [b.«open»] else []) ++
      (if 'h' ∈ price_opt then [b.high] else []) ++
        (if 'l' ∈ price_opt then [b.low] else [])

/-- Modelled from the spec: the arithmetic mean of the participating fields. -/
def mean_participating (b : Bar) (price_opt : List Char) : ℚ :=
  (participating_fields b price_opt).sum / ((participating_fields b price_opt).length : ℚ)

/-! ### `BackTester.ins_institution_condition` (lines 196-245) -/

/-- The three scan modes chosen at lines 214-218. -/
inductive FlowMode where
  | BOTH
  | FORE
  | INST
deriving DecidableEq

/-- Python truthiness of an integer flow value: `None` and `0` are falsy. -/
def truthyInt : Option ℤ → Bool
  | none => false
  | some v => decide (v ≠ 0)

/-- `BackTester._compare_quantity` (lines 232-245): under the mode's
truthiness guard, the relevant flow values must meet their thresholds. -/
def compare_quantity (mode : FlowMode) (th_fore th_inst : ℤ) (fore inst : Option ℤ) : Bool :=
  match mode with
  | .BOTH => truthyInt fore && truthyInt inst &&
      (decide (fore.getD 0 ≥ th_fore) && decide (inst.getD 0 ≥ th_inst))
  | .FORE => truthyInt fore && decide (fore.getD 0 ≥ th_fore)
  | .INST => truthyInt inst && decide (inst.getD 0 ≥ th_inst)

/-- The chart loop of lines 220-230: `day_cnt` is incremented on a
qualifying day and reset to 0 otherwise, and the date is recorded (an
observation is inserted) exactly when `day_cnt == days` after the update.
The function returns the dates of the inserted observations in scan order. -/
def instLoop (mode : FlowMode) (th_fore th_inst : ℤ) (days : ℕ) :
    List Bar → ℕ → List ℕ
  | [], _ => []
  | c :: rest, day_cnt =>
    let cnt := if compare_quantity mode th_fore th_inst c.fore c.inst then day_cnt + 1 else 0
    (if cnt = days then [c.date] else []) ++ instLoop mode th_fore th_inst days rest cnt

/-- `BackTester.ins_institution_condition` with the chart passed in
directly: mode selection per lines 214-218 (ArgumentError when both
thresholds are zero), then the run-counter scan starting from 0. -/
def ins_institution_condition (chart : List Bar) (th_fore th_inst : ℤ) (days : ℕ) :
    Except PyErr (List ℕ) :=
  if th_fore ≠ 0 ∧ th_inst ≠ 0 then .ok (instLoop .BOTH th_fore th_inst days chart 0)
  else if th_fore ≠ 0 then .ok (instLoop .FORE th_fore th_inst days chart 0)
  else if th_inst ≠ 0 then .ok (instLoop .INST th_fore th_inst days chart 0)
  else .error .argumentError

/-! ### The observation store: `insert` / `delete` / `delete_all` (lines 25-63) -/

/-- The mutable state of a `BackTester`: `self._test_list` and the
per-base-code insertion counters `self._code_nums` (a defaultdict(int),
modelled as a total function defaulting to 0). -/
structure BTState where
  test_list : List (String × ℕ × String)
  code_nums : String → ℕ

def initState : BTState := ⟨[], fun _ => 0⟩

/-- `BackTester.insert` (lines 39-51), returning both the instance id it
builds (`data[0] + "_" + str(self._code_nums[data[0]])`) and the new state.
The arity-3 check is enforced by the type of `data`. -/
def insertR (s : BTState) (data : String × ℕ × String) : String × BTState :=
  let no := toString (s.code_nums data.1)
  let code := data.1 ++ "_" ++ no
  (code,
   ⟨s.test_list ++ [(code, data.2.1, data.2.2)],
    fun c => if c = data.1 then s.code_nums data.1 + 1 else s.code_nums c⟩)

def insert (s : BTState) (data : String × ℕ × String) : BTState := (insertR s data).2

/-- The store operations: `insert(data)`, `delete()` (pop last),
`delete_all()`, and `delete(data)` (remove first equal entry). -/
inductive BTOp where
  | ins (data : String × ℕ × String)
  | deleteLast
  | deleteAll
  | del (data : String × ℕ × String)

def applyOp (s : BTState) : BTOp → BTState
  | .ins d => insert s d
  | .deleteLast => { s with test_list := s.test_list.dropLast }
  | .deleteAll => { s with test_list := [] }
  | .del d => { s with test_list := s.test_list.erase d }

def runOps (ops : List BTOp) : BTState := ops.foldl applyOp initState

/-- The (base code, instance id) pairs produced by each `insert` call while
running `ops` from state `s`, in call order. -/
def producedFrom (s : BTState) : List BTOp → List (String × String)
  | [] => []
  | op :: rest =>
    (match op with
     | .ins d => [(d.1, (insertR s d).1)]
     | _ => []) ++ producedFrom (applyOp s op) rest

/-- How many of `ops` are inserts of base code `b`. -/
def insCount (b : String) (ops : List BTOp) : ℕ :=
  ops.countP (fun op => match op with | .ins d => decide (d.1 = b) | _ => false)

/-- The instance ids produced for base code `b` over a whole run, in order. -/
def producedIdsOf (b : String) (ops : List BTOp) : List String :=
  ((producedFrom initState ops).filter (fun p => decide (p.1 = b))).map Prod.snd

/-! ### The back_test result table (lines 65-118) -/

/-- One row of the result DataFrame, columns
`grp, code, date, prev_price, price, captured, _1 .. _N` (`days` holds the
`_k` columns).  In a freshly appended statistic row everything after `code`
is None. -/
structure BTRow (α : Type) where
  grp : String
  code : String
  date : Option ℕ
  prev_price : Option α
  price : Option α
  captured : Option α
  days : List (Option α)
deriving DecidableEq

/-- The statistic row names, in the iteration order of the `static` dict of
line 98. -/
def statNames : List String := ["mean", "g_mean", "stddev", "median"]

/-- The values of a column that are not missing (what a nan-aware numpy
aggregation actually aggregates). -/
def presentVals (l : List (Option ℝ)) : List ℝ := l.filterMap id

/-- `np.nanmean` over one column. -/
noncomputable def nanmean (l : List (Option ℝ)) : Option ℝ :=
  let xs := presentVals l
  if xs.length = 0 then none else some (xs.sum / (xs.length : ℝ))

/-- `np.nanstd` over one column (population standard deviation, ddof = 0). -/
noncomputable def nanstd (l : List (Option ℝ)) : Option ℝ :=
  let xs := presentVals l
  if xs.length = 0 then none
  else some (Real.sqrt ((xs.map (fun x => (x - xs.sum / (xs.length : ℝ)) ^ 2)).sum /
    (xs.length : ℝ)))

/-- `np.nanmedian` over one column: sort the non-missing values, take the
middle value (odd count) or the mean of the two middle values (even count). -/
noncomputable def nanmedian (l : List (Option ℝ)) : Option ℝ :=
  let xs := (presentVals l).insertionSort (· ≤ ·)
  if xs.length = 0 then none
  else if xs.length % 2 = 1 then some (xs.getD (xs.length / 2) 0)
  else some ((xs.getD (xs.length / 2 - 1) 0 + xs.getD (xs.length / 2) 0) / 2)

/-- Modelled from the spec: `qutils.nangmean` (imported from qpkg.qutils,
whose source is not under src/): the exponential of the mean of the natural
logs, excluding missing and non-positive values, missing only when every
value is excluded. -/
noncomputable def nangmean (l : List (Option ℝ)) : Option ℝ :=
  let xs := (presentVals l).filter (fun x => decide (0 < x))
  if xs.length = 0 then none
  else some (Real.exp ((xs.map Real.log).sum / (xs.length : ℝ)))

/-- The `static` dict of line 98, in insertion (iteration) order. -/
noncomputable def statFuncs : List (String × (List (Option ℝ) → Option ℝ)) :=
  [("mean", nanmean), ("g_mean", nangmean), ("stddev", nanstd), ("median", nanmedian)]

/-- Lines 84-96 for one entry of `self._test_list`: fetch
`price = self._db.get_future_price_list(code[:6], date, N)` (a list of
length N + 2: previous price, capture price, then the N forward prices),
skip the observation when `price[1]` is NaN, otherwise build the row
`[group, code, date, price[0], price[1], 0, price[2], ...]` (the 0 is the
placeholder inserted at position 5 for the captured column). -/
def obsRow (db : String → ℕ → List (Option ℝ)) (e : String × ℕ × String) :
    Option (BTRow ℝ) :=
  let price := db (e.1.take 6) e.2.1
  if (price.getD 1 none).isNone then none
  else some ⟨e.2.2, e.1, some e.2.1, price.getD 0 none, price.getD 1 none, some 0, price.drop 2⟩

/-- Lines 99-104: a freshly appended statistic row `[group, stat, None, ...]`. -/
def statRow (N : ℕ) (g s : String) : BTRow ℝ :=
  ⟨g, s, none, none, none, none, List.replicate N none⟩

/-- Float division of possibly-missing column values: missing if either
operand is missing, or if the denominator is zero (pandas produces a
non-finite value there, which the nan-aware aggregations also skip). -/
noncomputable def divOpt : Option ℝ → Option ℝ → Option ℝ
  | some a, some b => if b = 0 then none else some (a / b)
  | _, _ => none

/-- Lines 107-109: divide every day column by the price column and set
`captured = price / prev_price`. -/
noncomputable def normalizeRow (r : BTRow ℝ) : BTRow ℝ :=
  { r with days := r.days.map (fun v => divOpt v r.price), captured := divOpt r.price r.prev_price }

/-- Column `c` of a row in the order used by the statistic fill of lines
111-116: columns `0 .. N-1` are the day columns `_1 .. _N` and column `N`
is `captured` (line 111 appends 'captured' to the day-column list). -/
def colOf (N : ℕ) (r : BTRow ℝ) (c : ℕ) : Option ℝ :=
  if c < N then r.days.getD c none else r.captured

/-- Line 116 for one (group, statistic) pair:
`result.loc[gc & sc, days] = stat_func(result.loc[gc, days], axis=0)`.
The aggregation input `result.loc[gc, days]` is every row of the group in
the CURRENT table - including statistic rows already filled by earlier
iterations of the loop - and the result is written into the row with
`code == stat`. -/
noncomputable def fillStat (N : ℕ) (g s : String) (f : List (Option ℝ) → Option ℝ)
    (table : List (BTRow ℝ)) : List (BTRow ℝ) :=
  let grpRows := table.filter (fun r => decide (r.grp = g))
  let agg : ℕ → Option ℝ := fun c => f (grpRows.map (fun r => colOf N r c))
  table.map (fun r =>
    if r.grp = g ∧ r.code = s then { r with days := (List.range N).map agg, captured := agg N }
    else r)

/-- Lines 112-116: for each group, for each statistic in dict order, fill
that group's statistic row from the current table. -/
noncomputable def fillStats (N : ℕ) (groups : List String) (table : List (BTRow ℝ)) :
    List (BTRow ℝ) :=
  groups.foldl (fun t g => statFuncs.foldl (fun t2 p => fillStat N g p.1 p.2 t2) t) table

/-- Lines 87-88: collect the distinct groups in first-seen order.  This
happens before the missing-price check, so skipped observations still
contribute their group. -/
def groupListOf (test_list : List (String × ℕ × String)) : List String :=
  test_list.foldl (fun gl e => if e.2.2 ∈ gl then gl else gl ++ [e.2.2]) []

/-- The `testResult` value returned by `back_test`: the result table and the
group list. -/
structure TestResult where
  result : List (BTRow ℝ)
  groups : List String

/-- Lines 83-109: the normalized result table before the statistic fill -
the surviving observation rows (lines 83-96), then one fresh statistic row
per group and statistic (lines 99-104), all normalized (lines 107-109). -/
noncomputable def preTable (db : String → ℕ → List (Option ℝ))
    (test_list : List (String × ℕ × String)) (N : ℕ) : List (BTRow ℝ) :=
  (test_list.filterMap (obsRow db)
    ++ (groupListOf test_list).flatMap (fun g => statNames.map (fun s => statRow N g s))).map
      normalizeRow

/-- `BackTester.back_test` (lines 65-118) with the price database passed in
as a function and `self._test_list` as an argument.  `N` is
`number_of_days`. -/
noncomputable def back_test (db : String → ℕ → List (Option ℝ))
    (test_list : List (String × ℕ × String)) (N : ℕ) : TestResult :=
  ⟨fillStats N (groupListOf test_list) (preTable db test_list N), groupListOf test_list⟩

/-- Find the row of a group with a given code. -/
noncomputable def findRow (t : List (BTRow ℝ)) (g s : String) : Option (BTRow ℝ) :=
  t.find? (fun r => decide (r.grp = g ∧ r.code = s))

/-! ### `testResult._get_min_idx_value` (lines 274-285) -/

/-- One step of `DataFrame.idxmin`: keep the first entry attaining the
minimal value (strict comparison keeps the earlier one on ties). -/
def idxMinStep {α : Type} [LinearOrder α] (acc : Option (ℕ × α)) (p : ℕ × α) :
    Option (ℕ × α) :=
  match acc with
  | none => some p
  | some q => if p.2 < q.2 then some p else some q

/-- `DataFrame.idxmin` over a list of (row index, value) candidates: the
first entry attaining the minimal value, if any. -/
def foldIdxMin {α : Type} [LinearOrder α] (l : List (ℕ × α)) : Option (ℕ × α) :=
  l.foldl idxMinStep none

/-- One step of `Series.idxmax` over (column, row, value) triples: keep the
first entry attaining the maximal value. -/
def idxMaxColStep {α : Type} [LinearOrder α] (acc : Option (ℕ × ℕ × α)) (p : ℕ × ℕ × α) :
    Option (ℕ × ℕ × α) :=
  match acc with
  | none => some p
  | some q => if q.2.2 < p.2.2 then some p else some q

/-- `Series.idxmax` over the per-column minima (column, row, value): the
first entry attaining the maximal value, if any. -/
def foldIdxMaxCol {α : Type} [LinearOrder α] (l : List (ℕ × ℕ × α)) : Option (ℕ × ℕ × α) :=
  l.foldl idxMaxColStep none

/-- The rows selected by `gc & ~sc` at line 280: the group's rows whose code
is not one of the statistic names, each paired with its position (the
DataFrame's integer index). -/
def obsRowsIdx {α : Type} (table : List (BTRow α)) (g : String) : List (ℕ × BTRow α) :=
  table.enum.filter (fun p => decide (p.2.grp = g ∧ p.2.code ∉ statNames))

/-- The (row index, value) candidates of day column `c` (`cols` at line 276
is `columns[6:]`, i.e. exactly the `_1 .. _N` day columns), skipping missing
values as idxmin does. -/
def colVals {α : Type} (table : List (BTRow α)) (g : String) (c : ℕ) : List (ℕ × α) :=
  (obsRowsIdx table g).filterMap (fun p => (p.2.days.getD c none).map (fun v => (p.1, v)))

/-- `testResult._get_min_idx_value` for one group: per day column take the
row attaining the column minimum (`idxmin`, line 280), then across columns
take the first column whose minimum is LARGEST (`idxmax`, line 283), and
report `[row index, column, value]`.  `N` is the number of day columns. -/
def get_min_idx_value {α : Type} [LinearOrder α] (table : List (BTRow α)) (N : ℕ)
    (g : String) : Option (ℕ × ℕ × α) :=
  let minPerCol : List (ℕ × ℕ × α) :=
    (List.range N).filterMap (fun c => (foldIdxMin (colVals table g c)).map (fun p => (c, p)))
  (foldIdxMaxCol minPerCol).map (fun q => (q.2.1, q.1, q.2.2))

/-! ### Concrete inputs used by the claim theorems -/

/-- C1 failing input: three observations in group "A" with previous price
100 and capture prices 110, 120, 90, giving captured ratios 1.10, 1.20,
0.90; `number_of_days = 0`, so the statistic fill touches exactly the
captured column. -/
def c1_test_list : List (String × ℕ × String) := [("P1", 0, "A"), ("P2", 1, "A"), ("P3", 2, "A")]

noncomputable def c1_db : String → ℕ → List (Option ℝ) := fun c _ =>
  if c = "P1" then [some 100, some 110]
  else if c = "P2" then [some 100, some 120]
  else [some 100, some 90]

/-- The contaminated geometric-mean value the code stores in group A's
g_mean row: the mean row's 16/15 participates in the aggregation. -/
noncomputable def c1G : ℝ :=
  Real.exp ((Real.log (11 / 10) + Real.log (6 / 5) + Real.log (9 / 10) + Real.log (16 / 15)) / 4)

/-- The mean of the stddev aggregation input (observations plus the two
statistic rows already filled). -/
noncomputable def c1Mu : ℝ := (11 / 10 + 6 / 5 + 9 / 10 + 16 / 15 + c1G) / 5

/-- The contaminated standard deviation the code stores in group A's stddev
row. -/
noncomputable def c1S : ℝ :=
  Real.sqrt (((11 / 10 - c1Mu) ^ 2 + (6 / 5 - c1Mu) ^ 2 + (9 / 10 - c1Mu) ^ 2 +
    (16 / 15 - c1Mu) ^ 2 + (c1G - c1Mu) ^ 2) / 5)

/-- The normalized result table of the C1 scenario before the statistic
fill: three observation rows with captured ratios 11/10, 6/5, 9/10, then
the four blank statistic rows (number_of_days = 0, so there are no day
columns and the fill loop touches exactly the captured column). -/
noncomputable def c1_T0 : List (BTRow ℝ) :=
  [⟨"A", "P1", some 0, some 100, some 110, some (11 / 10), []⟩,
   ⟨"A", "P2", some 1, some 100, some 120, some (6 / 5), []⟩,
   ⟨"A", "P3", some 2, some 100, some 90, some (9 / 10), []⟩,
   ⟨"A", "mean", none, none, none, none, []⟩,
   ⟨"A", "g_mean", none, none, none, none, []⟩,
   ⟨"A", "stddev", none, none, none, none, []⟩,
   ⟨"A", "median", none, none, none, none, []⟩]

/-- The C1 table after the mean fill. -/
noncomputable def c1_T1 : List (BTRow ℝ) :=
  [⟨"A", "P1", some 0, some 100, some 110, some (11 / 10), []⟩,
   ⟨"A", "P2", some 1, some 100, some 120, some (6 / 5), []⟩,
   ⟨"A", "P3", some 2, some 100, some 90, some (9 / 10), []⟩,
   ⟨"A", "mean", none, none, none, some (16 / 15), []⟩,
   ⟨"A", "g_mean", none, none, none, none, []⟩,
   ⟨"A", "stddev", none, none, none, none, []⟩,
   ⟨"A", "median", none, none, none, none, []⟩]

/-- The C1 table after the g_mean fill: the geometric mean was taken over
the three observations AND the already-filled mean row. -/
noncomputable def c1_T2 : List (BTRow ℝ) :=
  [⟨"A", "P1", some 0, some 100, some 110, some (11 / 10), []⟩,
   ⟨"A", "P2", some 1, some 100, some 120, some (6 / 5), []⟩,
   ⟨"A", "P3", some 2, some 100, some 90, some (9 / 10), []⟩,
   ⟨"A", "mean", none, none, none, some (16 / 15), []⟩,
   ⟨"A", "g_mean", none, none, none, some c1G, []⟩,
   ⟨"A", "stddev", none, none, none, none, []⟩,
   ⟨"A", "median", none, none, none, none, []⟩]

/-- The C1 table after the stddev fill: the standard deviation was taken
over the three observations and the mean and g_mean rows. -/
noncomputable def c1_T3 : List (BTRow ℝ) :=
  [⟨"A", "P1", some 0, some 100, some 110, some (11 / 10), []⟩,
   ⟨"A", "P2", some 1, some 100, some 120, some (6 / 5), []⟩,
   ⟨"A", "P3", some 2, some 100, some 90, some (9 / 10), []⟩,
   ⟨"A", "mean", none, none, none, some (16 / 15), []⟩,
   ⟨"A", "g_mean", none, none, none, some c1G, []⟩,
   ⟨"A", "stddev", none, none, none, some c1S, []⟩,
   ⟨"A", "median", none, none, none, none, []⟩]

/-- The C1 table after the median fill: the median was taken over the three
observations and the mean, g_mean and stddev rows, giving
(g_mean + 16/15) / 2 rather than the middle observation 11/10. -/
noncomputable def c1_T4 : List (BTRow ℝ) :=
  [⟨"A", "P1", some 0, some 100, some 110, some (11 / 10), []⟩,
   ⟨"A", "P2", some 1, some 100, some 120, some (6 / 5), []⟩,
   ⟨"A", "P3", some 2, some 100, some 90, some (9 / 10), []⟩,
   ⟨"A", "mean", none, none, none, some (16 / 15), []⟩,
   ⟨"A", "g_mean", none, none, none, some c1G, []⟩,
   ⟨"A", "stddev", none, none, none, some c1S, []⟩,
   ⟨"A", "median", none, none, none, some ((c1G + 16 / 15) / 2), []⟩]

/-- C4 scenario bars: a qualifying day (both flows at least 1000) and a
non-qualifying day. -/
def qualBar (d : ℕ) : Bar := ⟨d, 0, 0, 0, 0, 0, some 2000, some 1500, none⟩

def nonQualBar (d : ℕ) : Bar := ⟨d, 0, 0, 0, 0, 0, some 500, some 1500, none⟩

/-- C4 scenario A: exactly 3 consecutive qualifying days then a
non-qualifying day. -/
def c4_chartA : List Bar := [qualBar 1, qualBar 2, qualBar 3, nonQualBar 4]

/-- C4 scenario B: 2 qualifying days, a reset, then 3 qualifying days. -/
def c4_chartB : List Bar :=
  [qualBar 1, qualBar 2, nonQualBar 3, qualBar 4, qualBar 5, qualBar 6]

/-- C9 counterexample bar. -/
def c9_bar : Bar := ⟨0, 20, 10, 40, 5, 0, none, none, none⟩

/-- C6 witness entries: the observation whose capture price is missing, and
one healthy observation in the same group. -/
def c6_e : String × ℕ × String := ("Q1", 0, "A")

def c6_rest : List (String × ℕ × String) := [("Q2", 1, "A")]

noncomputable def c6_db : String → ℕ → List (Option ℝ) := fun c _ =>
  if c = "Q1" then [some 100, none] else [some 50, some 55]

noncomputable def c6_db2 : String → ℕ → List (Option ℝ) := fun c _ =>
  if c = "Q1" then [some 100, some 105] else [some 50, some 55]

/-- C10 witness: a single observation in group "G" whose capture price is
missing. -/
def c10_test_list : List (String × ℕ × String) := [("S1", 0, "G")]

noncomputable def c10_db : String → ℕ → List (Option ℝ) := fun _ _ => [some 100, none]

/-- C7 witness table (over ℚ): two observation rows of group "g" and a mean
statistic row that must be excluded from the search. -/
def c7_table : List (BTRow ℚ) :=
  [⟨"g", "X_0", some 0, some 1, some 1, some 1, [some 5, some 9]⟩,
   ⟨"g", "X_1", some 1, some 1, some 1, some 1, [some 8, some 7]⟩,
   ⟨"g", "mean", none, none, none, none, [some 0, some 0]⟩]

/-! ## Theorems -/

/-- Claim C2: the claim says every window passing the range-ratio filter is
rescaled so that its minimum and maximum coincide with the pattern's.  The
code's rescale (line 160) multiplies by the range ratio but never subtracts
the window minimum, so the window `[100, 110]` against the pattern `[1, 2]`
becomes `[11, 12]`: the range width matches the pattern's but the minimum is
11, not 1, and the maximum is 12, not 2. -/
theorem C2_rescale_window_shifts_range :
    rescale_window [100, 110] [1, 2] = [11, 12] ∧
    pyMin (rescale_window [100, 110] [1, 2]) ≠ pyMin ([1, 2] : List ℚ) ∧
    pyMax (rescale_window [100, 110] [1, 2]) ≠ pyMax ([1, 2] : List ℚ) := by
  norm_num [rescale_window, pyMax, pyMin]

/-- Claim C8 counterexample: a pattern of length 1 makes
`_trans_pat_to_frpat` raise ZeroDivisionError at line 184, not the
ArgumentError the claim asserts. -/
theorem C8_short_pattern_counterexample :
    trans_pat_to_frpat_checked [(5 : ℚ)] 60 = .error .zeroDivisionError ∧
    trans_pat_to_frpat_checked [(5 : ℚ)] 60 ≠ .error .argumentError := by
  refine ⟨rfl, ?_⟩
  simp [trans_pat_to_frpat_checked]

/-- Claim C8 (amended): a pattern of length < 2 makes the shape scan fail,
but with an unguarded built-in error (ZeroDivisionError for length 1,
IndexError for length 0), never with ArgumentError: no explicit guard
exists in the source. -/
theorem C8_short_pattern_unguarded_error (pattern : List ℚ) (ws : ℕ)
    (h : pattern.length < 2) :
    trans_pat_to_frpat_checked pattern ws =
      .error (if pattern.length = 1 then PyErr.zeroDivisionError else PyErr.indexError) ∧
    ∀ e, trans_pat_to_frpat_checked pattern ws = .error e → e ≠ PyErr.argumentError := by
  match pattern, h with
  | [], _ =>
    refine ⟨by simp [trans_pat_to_frpat_checked], ?_⟩
    intro e he
    simp [trans_pat_to_frpat_checked] at he
    simp [← he]
  | [a], _ =>
    refine ⟨by simp [trans_pat_to_frpat_checked], ?_⟩
    intro e he
    simp [trans_pat_to_frpat_checked] at he
    simp [← he]

theorem C8_witness :
    ([(5 : ℚ)] : List ℚ).length < 2 ∧
    trans_pat_to_frpat_checked [(5 : ℚ)] 60 =
      .error (if ([(5 : ℚ)] : List ℚ).length = 1 then PyErr.zeroDivisionError
        else PyErr.indexError) :=
  ⟨by decide, (C8_short_pattern_unguarded_error [(5 : ℚ)] 60 (by decide)).1⟩

/-- Claim C9 counterexample: the composite price divides by the length of
the selector string, not by the number of participating fields, so the
selector "cc" (close participates once, string length 2) yields close / 2
instead of the mean of the participating fields. -/
theorem C9_selector_counterexample :
    choose_chart_price_bar c9_bar ['c', 'c'] = 5 ∧
    mean_participating c9_bar ['c', 'c'] = 10 ∧
    choose_chart_price_bar c9_bar ['c', 'c'] ≠ mean_participating c9_bar ['c', 'c'] := by
  have ho : ('o' : Char) ≠ 'c' := by decide
  have hh : ('h' : Char) ≠ 'c' := by decide
  have hl : ('l' : Char) ≠ 'c' := by decide
  norm_num [choose_chart_price_bar, mean_participating, participating_fields, c9_bar, ho, hh, hl]

/-- For a duplicate-free selector drawn from {c, o, h, l}, the string length
equals the number of participating fields. -/
theorem selector_length_eq (opt : List Char) (hnd : opt.Nodup)
    (hsub : ∀ ch ∈ opt, ch ∈ (['c', 'o', 'h', 'l'] : List Char)) :
    opt.length = (if 'c' ∈ opt then 1 else 0) + (if 'o' ∈ opt then 1 else 0) +
      (if 'h' ∈ opt then 1 else 0) + (if 'l' ∈ opt then 1 else 0) := by
  induction opt with
  | nil => simp
  | cons a t ih =>
    rcases List.nodup_cons.mp hnd with ⟨ha, ht⟩
    have hsubt : ∀ ch ∈ t, ch ∈ (['c', 'o', 'h', 'l'] : List Char) :=
      fun ch hch => hsub ch (List.mem_cons_of_mem a hch)
    have hrec := ih ht hsubt
    have hma := hsub a (List.mem_cons_self a t)
    simp only [List.mem_cons, List.not_mem_nil, or_false] at hma
    rcases hma with h1 | h1 | h1 | h1 <;> subst h1 <;>
      simp only [List.length_cons, List.mem_cons] <;>
      rw [hrec] <;> simp [ha] <;> split_ifs <;> simp_all <;> omega

/-- Claim C9 (amended): for every bar and every selector string that is
duplicate-free, nonempty and drawn from {c, o, h, l} (so that the string
length equals the number of participating fields), the composite price does
equal the arithmetic mean of the participating fields. -/
theorem C9_composite_price_mean (b : Bar) (opt : List Char)
    (hnd : opt.Nodup) (hsub : ∀ ch ∈ opt, ch ∈ (['c', 'o', 'h', 'l'] : List Char))
    (hne : opt ≠ []) :
    choose_chart_price_bar b opt = mean_participating b opt := by
  have hlen : (participating_fields b opt).length = opt.length := by
    rw [selector_length_eq opt hnd hsub]
    simp only [participating_fields, List.length_append]
    split_ifs <;> simp
  have hsum : (participating_fields b opt).sum =
      (if 'l' ∈ opt then
        (if 'h' ∈ opt then
          (if 'o' ∈ opt then (if 'c' ∈ opt then (0 : ℚ) + b.close else 0) + b.«open»
           else (if 'c' ∈ opt then (0 : ℚ) + b.close else 0)) + b.high
         else (if 'o' ∈ opt then (if 'c' ∈ opt then (0 : ℚ) + b.close else 0) + b.«open»
           else (if 'c' ∈ opt then (0 : ℚ) + b.close else 0))) + b.low
       else (if 'h' ∈ opt then
          (if 'o' ∈ opt then (if 'c' ∈ opt then (0 : ℚ) + b.close else 0) + b.«open»
           else (if 'c' ∈ opt then (0 : ℚ) + b.close else 0)) + b.high
         else (if 'o' ∈ opt then (if 'c' ∈ opt then (0 : ℚ) + b.close else 0) + b.«open»
           else (if 'c' ∈ opt then (0 : ℚ) + b.close else 0)))) := by
    simp only [participating_fields, List.sum_append]
    split_ifs <;> simp <;> ring
  simp only [choose_chart_price_bar, mean_participating]
  rw [hsum, hlen]

theorem C9_witness :
    (['c', 'o'] : List Char).Nodup ∧
    (∀ ch ∈ (['c', 'o'] : List Char), ch ∈ (['c', 'o', 'h', 'l'] : List Char)) ∧
    (['c', 'o'] : List Char) ≠ [] ∧
    choose_chart_price_bar c9_bar ['c', 'o'] = mean_participating c9_bar ['c', 'o'] :=
  ⟨by decide, by decide, by decide,
   C9_composite_price_mean c9_bar ['c', 'o'] (by decide) (by decide) (by decide)⟩

/-- The per-base-code behaviour of the store operations, from an arbitrary
starting state: running `ops` produces, for base code `b`, exactly the ids
`b_k` for `k` starting at the current counter, one per insert of `b`, and
the counter advances by exactly the number of such inserts (deletions touch
neither). -/
theorem producedFrom_spec (b : String) : ∀ (ops : List BTOp) (s : BTState),
    ((producedFrom s ops).filter (fun p => decide (p.1 = b))).map Prod.snd =
      (List.range' (s.code_nums b) (insCount b ops)).map (fun i => b ++ "_" ++ toString i) ∧
    (ops.foldl applyOp s).code_nums b = s.code_nums b + insCount b ops := by
  intro ops
  induction ops with
  | nil => intro s; simp [producedFrom, insCount]
  | cons op rest ih =>
    intro s
    have hrec := ih (applyOp s op)
    cases op with
    | ins d =>
      by_cases hb : d.1 = b
      · subst hb
        have hcn : (applyOp s (.ins d)).code_nums d.1 = s.code_nums d.1 + 1 := by
          simp [applyOp, insert, insertR]
        refine ⟨?_, ?_⟩
        · simp only [producedFrom, List.filter_append, List.map_append, List.foldl_cons]
          rw [hrec.1, hcn]
          simp [insCount, List.countP_cons, insertR, List.range'_succ]
        · simp only [List.foldl_cons]
          rw [hrec.2, hcn]
          simp [insCount, List.countP_cons]
          omega
      · have hcn : (applyOp s (.ins d)).code_nums b = s.code_nums b := by
          simp only [applyOp, insert, insertR]
          rw [if_neg (fun h => hb h.symm)]
        refine ⟨?_, ?_⟩
        · simp only [producedFrom, List.filter_append, List.map_append, List.foldl_cons]
          rw [hrec.1, hcn]
          simp [insCount, List.countP_cons, hb]
        · simp only [List.foldl_cons]
          rw [hrec.2, hcn]
          simp [insCount, List.countP_cons, hb]
    | deleteLast =>
      refine ⟨?_, ?_⟩
      · simp only [producedFrom, List.filter_append, List.map_append, List.foldl_cons]
        rw [hrec.1]
        simp [insCount, List.countP_cons, applyOp]
      · simp only [List.foldl_cons]
        rw [hrec.2]
        simp [insCount, List.countP_cons, applyOp]
    | deleteAll =>
      refine ⟨?_, ?_⟩
      · simp only [producedFrom, List.filter_append, List.map_append, List.foldl_cons]
        rw [hrec.1]
        simp [insCount, List.countP_cons, applyOp]
      · simp only [List.foldl_cons]
        rw [hrec.2]
        simp [insCount, List.countP_cons, applyOp]
    | del d =>
      refine ⟨?_, ?_⟩
      · simp only [producedFrom, List.filter_append, List.map_append, List.foldl_cons]
        rw [hrec.1]
        simp [insCount, List.countP_cons, applyOp]
      · simp only [List.foldl_cons]
        rw [hrec.2]
        simp [insCount, List.countP_cons, applyOp]

/-- Claim C5: for every base code, the sequence number embedded in the
instance id starts at 0 and increments by one on every insert of that base
code, independent of interleaved deletions of any kind, and the ids are
never reused: over any operation sequence the ids produced for base `b` are
exactly `b_0, b_1, ..., b_{n-1}` in order, and the counter equals the
number of inserts of `b`.  The last conjunct runs the concrete scenario of
the claim with interleaved `delete()` and `delete_all()`. -/
theorem C5_instance_ids_monotone (ops : List BTOp) (b : String) :
    producedIdsOf b ops = (List.range (insCount b ops)).map (fun i => b ++ "_" ++ toString i) ∧
    (runOps ops).code_nums b = insCount b ops ∧
    producedIdsOf "005930" [.ins ("005930", 1, "g"), .deleteLast, .ins ("005930", 2, "g"),
      .deleteAll, .ins ("005930", 3, "g")] = ["005930_0", "005930_1", "005930_2"] := by
  refine ⟨?_, ?_, by decide⟩
  · have h := (producedFrom_spec b ops initState).1
    simpa [producedIdsOf, initState, List.range_eq_range'] using h
  · have h := (producedFrom_spec b ops initState).2
    simpa [runOps, initState] using h

/-- The run-counter scan on an all-qualifying chart, from an arbitrary
counter value: it emits exactly one date - the one at which the counter
first reaches `days` - and nothing afterwards. -/
theorem instLoop_all_qualifying (mode : FlowMode) (tf ti : ℤ) (days : ℕ) :
    ∀ (chart : List Bar) (cnt : ℕ),
      (∀ c ∈ chart, compare_quantity mode tf ti c.fore c.inst = true) →
      instLoop mode tf ti days chart cnt =
        if cnt < days ∧ days ≤ cnt + chart.length
        then [(chart.map Bar.date).getD (days - cnt - 1) 0] else [] := by
  intro chart
  induction chart with
  | nil =>
    intro cnt h
    have hno : ¬(cnt < days ∧ days ≤ cnt + ([] : List Bar).length) := by
      simp only [List.length_nil]; omega
    simp [instLoop, hno]
  | cons c rest ih =>
    intro cnt h
    have hc := h c (List.mem_cons_self c rest)
    have hrest := ih (cnt + 1) (fun x hx => h x (List.mem_cons_of_mem c hx))
    simp only [instLoop, hc, if_true]
    rw [hrest]
    by_cases hcd : cnt + 1 = days
    · have h1 : ¬(cnt + 1 < days ∧ days ≤ cnt + 1 + rest.length) := by omega
      have h2 : cnt < days ∧ days ≤ cnt + (c :: rest).length := by
        simp only [List.length_cons]; omega
      have h3 : days - cnt - 1 = 0 := by omega
      rw [if_pos hcd, if_neg h1, if_pos h2]
      simp [h3]
    · by_cases h4 : cnt + 1 < days ∧ days ≤ cnt + 1 + rest.length
      · have h5 : cnt < days ∧ days ≤ cnt + (c :: rest).length := by
          simp only [List.length_cons]; omega
        have h6 : days - cnt - 1 = (days - (cnt + 1) - 1) + 1 := by omega
        rw [if_neg hcd, if_pos h4, if_pos h5]
        simp only [List.map_cons, h6, List.getD_cons_succ, List.nil_append]
      · have h5 : ¬(cnt < days ∧ days ≤ cnt + (c :: rest).length) := by
          simp only [List.length_cons]; omega
        rw [if_neg hcd, if_neg h4, if_neg h5]
        simp

/-- Claim C4: the run counter resets on non-qualifying days, increments on
qualifying days, and exactly one observation is emitted the moment the
counter first equals `days` (later days of the same run emit nothing): on
an all-qualifying chart exactly one date is emitted, at position
`days - 1`; the concrete scenarios run `ins_institution_condition` with
thresholds 1000/1000 and 3 consecutive days: 3 qualifying days then a reset
emit exactly the 3rd date, and 2 qualifying days, a reset, then 3
qualifying days emit exactly the 6th date. -/
theorem C4_institution_condition_runs :
    (∀ (mode : FlowMode) (tf ti : ℤ) (days : ℕ) (chart : List Bar), 1 ≤ days →
      (∀ c ∈ chart, compare_quantity mode tf ti c.fore c.inst = true) →
      instLoop mode tf ti days chart 0 =
        if days ≤ chart.length then [(chart.map Bar.date).getD (days - 1) 0] else []) ∧
    ins_institution_condition c4_chartA 1000 1000 3 = .ok [3] ∧
    ins_institution_condition c4_chartB 1000 1000 3 = .ok [6] := by
  refine ⟨?_, rfl, rfl⟩
  intro mode tf ti days chart hd hq
  rw [instLoop_all_qualifying mode tf ti days chart 0 hq]
  by_cases hl : days ≤ chart.length
  · have h1 : 0 < days ∧ days ≤ 0 + chart.length := by omega
    simp [h1, hl]
  · have h1 : ¬(0 < days ∧ days ≤ 0 + chart.length) := by omega
    simp [h1, hl]

theorem option_some_or {α : Type} (a : α) (o : Option α) : (some a).or o = some a := rfl

theorem frpat_offset_succ (n ws i : ℕ) :
    frpat_offset n ws (i + 1) = frpat_offset n ws i + frpat_steps n ws i := by
  simp [frpat_offset, List.range_succ]

theorem frpatLoop_length (pattern : List ℚ) :
    ∀ (l : List ℕ) (i cnt : ℕ), (frpatLoop pattern l i cnt).length = l.sum := by
  intro l
  induction l with
  | nil => intro i cnt; simp [frpatLoop]
  | cons x t ih => intro i cnt; simp [frpatLoop, ih]

theorem frpatLoop_map_fst (pattern : List ℚ) :
    ∀ (l : List ℕ) (i cnt : ℕ),
      (frpatLoop pattern l i cnt).map Prod.fst = List.range' (cnt + 1) l.sum := by
  intro l
  induction l with
  | nil => intro i cnt; simp [frpatLoop]
  | cons x t ih =>
    intro i cnt
    have hseg : ((List.range x).map (fun j =>
        ((cnt + j + 1 : ℕ),
         pattern.getD i 0 + (pattern.getD (i + 1) 0 - pattern.getD i 0) * ((j : ℚ) + 1) /
           (x : ℚ)))).map Prod.fst = List.range' (cnt + 1) x := by
      rw [List.map_map, List.range'_eq_map_range]
      apply List.map_congr_left
      intro a _
      simp only [Function.comp_apply]
      omega
    have h2 := List.range'_append (cnt + 1) x t.sum 1
    simp only [one_mul] at h2
    simp only [frpatLoop, List.map_append, hseg, ih, List.sum_cons]
    rw [show cnt + x + 1 = cnt + 1 + x by omega, show x + t.sum = t.sum + x by omega]
    exact h2

theorem frpatLoop_spec (pattern : List ℚ) (n ws : ℕ) :
    ∀ (m i0 : ℕ),
      frpatLoop pattern ((List.range' i0 m).map (frpat_steps n ws)) i0 (frpat_offset n ws i0) =
        (List.range' i0 m).flatMap (fun i =>
          (List.range (frpat_steps n ws i)).map (fun j =>
            (frpat_offset n ws i + j + 1,
             pattern.getD i 0 + (pattern.getD (i + 1) 0 - pattern.getD i 0) * ((j : ℚ) + 1) /
               (frpat_steps n ws i : ℚ)))) := by
  intro m
  induction m with
  | zero => intro i0; simp [frpatLoop]
  | succ k ih =>
    intro i0
    rw [List.range'_succ]
    simp only [List.map_cons, List.flatMap_cons, frpatLoop]
    rw [← frpat_offset_succ n ws i0]
    rw [ih (i0 + 1)]

theorem trans_pat_eq_spec (pattern : List ℚ) (ws : ℕ) :
    trans_pat_to_frpat pattern ws = frpat_spec pattern ws := by
  unfold trans_pat_to_frpat frpat_spec trans_intervals
  congr 1
  have h0 : frpat_offset pattern.length ws 0 = 0 := by simp [frpat_offset]
  have hsp := frpatLoop_spec pattern pattern.length ws (pattern.length - 1) 0
  rw [h0] at hsp
  rw [List.range_eq_range']
  exact hsp

theorem steps_sum (n ws : ℕ) : ∀ (m : ℕ),
    ((List.range m).map (frpat_steps n ws)).sum =
      m * ((ws - 1) / (n - 1)) + min ((ws - 1) % (n - 1)) m := by
  intro m
  induction m with
  | zero => simp
  | succ k ih =>
    rw [List.range_succ, List.map_append, List.sum_append, ih]
    simp only [List.map_cons, List.map_nil, List.sum_cons, List.sum_nil]
    unfold frpat_steps
    have hm : (k + 1) * ((ws - 1) / (n - 1)) = k * ((ws - 1) / (n - 1)) + (ws - 1) / (n - 1) := by
      ring
    split_ifs with h <;> omega

theorem trans_intervals_sum (n ws : ℕ) (h2 : 2 ≤ n) (hws : n ≤ ws) :
    (trans_intervals n ws).sum = ws - 1 := by
  unfold trans_intervals
  rw [steps_sum]
  have hq : (ws - 1) % (n - 1) < n - 1 := Nat.mod_lt _ (by omega)
  have hd := Nat.div_add_mod (ws - 1) (n - 1)
  rw [min_eq_left (Nat.le_of_lt hq)]
  exact hd

theorem trans_intervals_pos (n ws : ℕ) (h2 : 2 ≤ n) (hws : n ≤ ws) :
    ∀ x ∈ trans_intervals n ws, 1 ≤ x := by
  intro x hx
  unfold trans_intervals at hx
  rcases List.mem_map.mp hx with ⟨i, _, rfl⟩
  have hp : 0 < (ws - 1) / (n - 1) := Nat.div_pos (by omega) (by omega)
  unfold frpat_steps
  split_ifs <;> omega

theorem frpatLoop_getLast (pattern : List ℚ) :
    ∀ (l : List ℕ) (i cnt : ℕ), (∀ x ∈ l, 1 ≤ x) → l ≠ [] →
      (frpatLoop pattern l i cnt).getLast? =
        some (cnt + l.sum, pattern.getD (i + l.length) 0) := by
  intro l
  induction l with
  | nil => intro i cnt _ h; exact absurd rfl h
  | cons x t ih =>
    intro i cnt hall _
    by_cases ht : t = []
    · subst ht
      have hx : 1 ≤ x := hall x (List.mem_cons_self x [])
      obtain ⟨k, rfl⟩ : ∃ k, x = k + 1 := ⟨x - 1, by omega⟩
      simp only [frpatLoop, List.append_nil]
      rw [List.range_succ, List.map_append]
      rw [List.getLast?_append]
      have hk : ((k : ℚ) + 1) ≠ 0 := by positivity
      have hval : pattern.getD i 0 + (pattern.getD (i + 1) 0 - pattern.getD i 0) *
          ((k : ℚ) + 1) / ((k + 1 : ℕ) : ℚ) = pattern.getD (i + 1) 0 := by
        push_cast
        rw [mul_div_assoc, div_self hk]
        ring
      simp only [List.map_cons, List.map_nil, List.getLast?_singleton, option_some_or,
        List.sum_cons, List.sum_nil, List.length_cons, List.length_nil, Option.some.injEq,
        Prod.mk.injEq]
      exact ⟨by omega, hval⟩
    · have hlen := frpatLoop_length pattern t (i + 1) (cnt + x)
      have hsum1 : 1 ≤ t.sum := by
        rcases t with _ | ⟨y, t2⟩
        · exact absurd rfl ht
        · have hy := hall y (by simp)
          simp only [List.sum_cons]
          omega
      have hne2 : frpatLoop pattern t (i + 1) (cnt + x) ≠ [] := by
        intro hcon
        rw [hcon] at hlen
        simp at hlen
        omega
      simp only [frpatLoop]
      rw [List.getLast?_append,
        ih (i + 1) (cnt + x) (fun z hz => hall z (List.mem_cons_of_mem x hz)) ht]
      simp only [option_some_or, List.sum_cons, List.length_cons, Option.some.injEq,
        Prod.mk.injEq]
      constructor
      · omega
      · congr 1
        omega

/-- Claim C3: for every pattern of length at least 2 and every target length
at least the pattern length, `_trans_pat_to_frpat` produces exactly
`window_size` points indexed 0 .. window_size - 1, starting at `pattern[0]`
and ending at `pattern[-1]`, and coincides pointwise with the
spec-described resampling (`frpat_spec`): each of the `len(pattern) - 1`
segments receives `floor((ws-1)/(len-1))` unit steps or one more (extras to
the first `remainder` segments), with linear interpolation along each
segment. -/
theorem C3_trans_pat_to_frpat_correct (pattern : List ℚ) (ws : ℕ)
    (h2 : 2 ≤ pattern.length) (hws : pattern.length ≤ ws) :
    (trans_pat_to_frpat pattern ws).length = ws ∧
    (trans_pat_to_frpat pattern ws).map Prod.fst = List.range ws ∧
    (trans_pat_to_frpat pattern ws).head? = some (0, pattern.getD 0 0) ∧
    (trans_pat_to_frpat pattern ws).getLast? =
      some (ws - 1, pattern.getD (pattern.length - 1) 0) ∧
    trans_pat_to_frpat pattern ws = frpat_spec pattern ws := by
  have hsum := trans_intervals_sum pattern.length ws h2 hws
  have hlen0 : (trans_intervals pattern.length ws).length = pattern.length - 1 := by
    simp [trans_intervals]
  refine ⟨?_, ?_, ?_, ?_, trans_pat_eq_spec pattern ws⟩
  · simp only [trans_pat_to_frpat, List.length_cons, frpatLoop_length, hsum]
    omega
  · simp only [trans_pat_to_frpat, List.map_cons, frpatLoop_map_fst, hsum]
    rw [List.range_eq_range']
    rw [show ws = (ws - 1) + 1 by omega, List.range'_succ]
    simp
  · rcases pattern with _ | ⟨a, t⟩
    · simp at h2
    · simp [trans_pat_to_frpat]
  · have hpos := trans_intervals_pos pattern.length ws h2 hws
    have hne : trans_intervals pattern.length ws ≠ [] := by
      intro hcon
      rw [hcon] at hlen0
      simp at hlen0
      omega
    have hfl := frpatLoop_getLast pattern (trans_intervals pattern.length ws) 0 0 hpos hne
    have hform : trans_pat_to_frpat pattern ws =
        [(0, pattern.headD 0)] ++ frpatLoop pattern (trans_intervals pattern.length ws) 0 0 :=
      rfl
    rw [hform, List.getLast?_append, hfl, hsum, hlen0]
    simp only [option_some_or, Nat.zero_add]

theorem C3_witness :
    2 ≤ ([6, 4, 3] : List ℚ).length ∧ ([6, 4, 3] : List ℚ).length ≤ 5 ∧
    (trans_pat_to_frpat [6, 4, 3] 5).length = 5 ∧
    trans_pat_to_frpat [6, 4, 3] 5 = frpat_spec [6, 4, 3] 5 :=
  ⟨by decide, by decide,
   (C3_trans_pat_to_frpat_correct [6, 4, 3] 5 (by decide) (by decide)).1,
   (C3_trans_pat_to_frpat_correct [6, 4, 3] 5 (by decide) (by decide)).2.2.2.2⟩

theorem C4_witness :
    (1 ≤ 2 ∧ ∀ c ∈ ([qualBar 7, qualBar 8, qualBar 9] : List Bar),
        compare_quantity .BOTH 1000 1000 c.fore c.inst = true) ∧
    instLoop .BOTH 1000 1000 2 [qualBar 7, qualBar 8, qualBar 9] 0 =
      (if 2 ≤ ([qualBar 7, qualBar 8, qualBar 9] : List Bar).length
       then [(([qualBar 7, qualBar 8, qualBar 9] : List Bar).map Bar.date).getD (2 - 1) 0]
       else []) :=
  ⟨⟨by decide, by decide⟩,
   C4_institution_condition_runs.1 .BOTH 1000 1000 2 [qualBar 7, qualBar 8, qualBar 9]
     (by decide) (by decide)⟩

theorem foldIdxMin_go {α : Type} [LinearOrder α] :
    ∀ (l : List (ℕ × α)) (a : ℕ × α),
      ∃ b, l.foldl idxMinStep (some a) = some b ∧ (b = a ∨ b ∈ l) ∧ b.2 ≤ a.2 ∧
        ∀ p ∈ l, b.2 ≤ p.2 := by
  intro l
  induction l with
  | nil => intro a; exact ⟨a, rfl, Or.inl rfl, le_refl _, by simp⟩
  | cons p t ih =>
    intro a
    rw [List.foldl_cons]
    by_cases h : p.2 < a.2
    · have hstep : idxMinStep (some a) p = some p := by simp [idxMinStep, h]
      rw [hstep]
      obtain ⟨b, hb, hmem, hle, hall⟩ := ih p
      refine ⟨b, hb, ?_, le_trans hle (le_of_lt h), ?_⟩
      · rcases hmem with rfl | hm
        · exact Or.inr (List.mem_cons_self _ _)
        · exact Or.inr (List.mem_cons_of_mem _ hm)
      · intro q hq
        rcases List.mem_cons.mp hq with rfl | hq2
        · exact hle
        · exact hall q hq2
    · have hstep : idxMinStep (some a) p = some a := by simp [idxMinStep, h]
      rw [hstep]
      obtain ⟨b, hb, hmem, hle, hall⟩ := ih a
      refine ⟨b, hb, ?_, hle, ?_⟩
      · rcases hmem with rfl | hm
        · exact Or.inl rfl
        · exact Or.inr (List.mem_cons_of_mem _ hm)
      · intro q hq
        rcases List.mem_cons.mp hq with rfl | hq2
        · exact le_trans hle (not_lt.mp h)
        · exact hall q hq2

theorem foldIdxMin_spec {α : Type} [LinearOrder α] (l : List (ℕ × α)) (hne : l ≠ []) :
    ∃ b, foldIdxMin l = some b ∧ b ∈ l ∧ ∀ p ∈ l, b.2 ≤ p.2 := by
  rcases l with _ | ⟨a, t⟩
  · exact absurd rfl hne
  · unfold foldIdxMin
    rw [List.foldl_cons, show idxMinStep none a = some a from rfl]
    obtain ⟨b, hb, hmem, hle, hall⟩ := foldIdxMin_go t a
    refine ⟨b, hb, ?_, ?_⟩
    · rcases hmem with rfl | hm
      · exact List.mem_cons_self _ _
      · exact List.mem_cons_of_mem _ hm
    · intro q hq
      rcases List.mem_cons.mp hq with rfl | hq2
      · exact hle
      · exact hall q hq2

theorem foldIdxMaxCol_go {α : Type} [LinearOrder α] :
    ∀ (l : List (ℕ × ℕ × α)) (a : ℕ × ℕ × α),
      ∃ b, l.foldl idxMaxColStep (some a) = some b ∧ (b = a ∨ b ∈ l) ∧ a.2.2 ≤ b.2.2 ∧
        ∀ p ∈ l, p.2.2 ≤ b.2.2 := by
  intro l
  induction l with
  | nil => intro a; exact ⟨a, rfl, Or.inl rfl, le_refl _, by simp⟩
  | cons p t ih =>
    intro a
    rw [List.foldl_cons]
    by_cases h : a.2.2 < p.2.2
    · have hstep : idxMaxColStep (some a) p = some p := by simp [idxMaxColStep, h]
      rw [hstep]
      obtain ⟨b, hb, hmem, hle, hall⟩ := ih p
      refine ⟨b, hb, ?_, le_trans (le_of_lt h) hle, ?_⟩
      · rcases hmem with rfl | hm
        · exact Or.inr (List.mem_cons_self _ _)
        · exact Or.inr (List.mem_cons_of_mem _ hm)
      · intro q hq
        rcases List.mem_cons.mp hq with rfl | hq2
        · exact hle
        · exact hall q hq2
    · have hstep : idxMaxColStep (some a) p = some a := by simp [idxMaxColStep, h]
      rw [hstep]
      obtain ⟨b, hb, hmem, hle, hall⟩ := ih a
      refine ⟨b, hb, ?_, hle, ?_⟩
      · rcases hmem with rfl | hm
        · exact Or.inl rfl
        · exact Or.inr (List.mem_cons_of_mem _ hm)
      · intro q hq
        rcases List.mem_cons.mp hq with rfl | hq2
        · exact le_trans (not_lt.mp h) hle
        · exact hall q hq2

theorem foldIdxMaxCol_spec {α : Type} [LinearOrder α] (l : List (ℕ × ℕ × α)) (hne : l ≠ []) :
    ∃ b, foldIdxMaxCol l = some b ∧ b ∈ l ∧ ∀ p ∈ l, p.2.2 ≤ b.2.2 := by
  rcases l with _ | ⟨a, t⟩
  · exact absurd rfl hne
  · unfold foldIdxMaxCol
    rw [List.foldl_cons, show idxMaxColStep none a = some a from rfl]
    obtain ⟨b, hb, hmem, hle, hall⟩ := foldIdxMaxCol_go t a
    refine ⟨b, hb, ?_, ?_⟩
    · rcases hmem with rfl | hm
      · exact List.mem_cons_self _ _
      · exact List.mem_cons_of_mem _ hm
    · intro q hq
      rcases List.mem_cons.mp hq with rfl | hq2
      · exact hle
      · exact hall q hq2

/-- Claim C7: for every result table and group whose observation rows (rows
of the group with a code outside {mean, g_mean, stddev, median}) exist and
carry a value in every day column, `_get_min_idx_value` reports a triple
(row, column, value) obtained by the two-stage search: per day column the
row attaining that column's minimum over the group's observation rows, then
the column whose per-column minimum is LARGEST (argmax, not argmin), with
the reported row and value being that column's minimizer and its value. -/
theorem C7_min_idx_two_stage {α : Type} [LinearOrder α] (table : List (BTRow α)) (N : ℕ)
    (g : String) (hne : obsRowsIdx table g ≠ []) (hN : 0 < N)
    (hfull : ∀ p ∈ obsRowsIdx table g, ∀ c < N, (p.2.days.getD c none).isSome) :
    ∃ ri c v, get_min_idx_value table N g = some (ri, c, v) ∧ c < N ∧
      (ri, v) ∈ colVals table g c ∧
      (∀ q ∈ colVals table g c, v ≤ q.2) ∧
      ∀ c2 < N, ∃ m, (∃ r2, (r2, m) ∈ colVals table g c2) ∧
        (∀ q ∈ colVals table g c2, m ≤ q.2) ∧ m ≤ v := by
  have hdef : get_min_idx_value table N g =
      (foldIdxMaxCol ((List.range N).filterMap
        (fun c => (foldIdxMin (colVals table g c)).map (fun p => (c, p))))).map
          (fun q => (q.2.1, q.1, q.2.2)) := rfl
  obtain ⟨p0, hp0⟩ := List.exists_mem_of_ne_nil _ hne
  have hcv : ∀ c, c < N → colVals table g c ≠ [] := by
    intro c hc
    obtain ⟨v, hv⟩ := Option.isSome_iff_exists.mp (hfull p0 hp0 c hc)
    have hmem : (p0.1, v) ∈ colVals table g c := by
      apply List.mem_filterMap.mpr
      exact ⟨p0, hp0, by rw [hv]; rfl⟩
    exact List.ne_nil_of_mem hmem
  have hMP : ∀ c, c < N → ∀ b, foldIdxMin (colVals table g c) = some b →
      (c, b) ∈ (List.range N).filterMap
        (fun c => (foldIdxMin (colVals table g c)).map (fun p => (c, p))) := by
    intro c hc b hb
    apply List.mem_filterMap.mpr
    exact ⟨c, List.mem_range.mpr hc, by rw [hb]; rfl⟩
  obtain ⟨b0, hb0, _, _⟩ := foldIdxMin_spec (colVals table g 0) (hcv 0 hN)
  have hMne : (List.range N).filterMap
      (fun c => (foldIdxMin (colVals table g c)).map (fun p => (c, p))) ≠ [] :=
    List.ne_nil_of_mem (hMP 0 hN b0 hb0)
  obtain ⟨q, hq, hqmem, hqmax⟩ := foldIdxMaxCol_spec _ hMne
  obtain ⟨c, hcr, hcq⟩ := List.mem_filterMap.mp hqmem
  obtain ⟨bc, hbc, hbcq⟩ := Option.map_eq_some'.mp hcq
  have hcN : c < N := List.mem_range.mp hcr
  obtain ⟨b, hb, hbm, hball⟩ := foldIdxMin_spec (colVals table g c) (hcv c hcN)
  have hbbc : bc = b := by rw [hb] at hbc; exact (Option.some_inj.mp hbc).symm
  subst hbbc
  refine ⟨bc.1, c, bc.2, ?_, hcN, ?_, hball, ?_⟩
  · rw [hdef, hq, ← hbcq]
    rfl
  · rw [Prod.mk.eta]
    exact hbm
  · intro c2 hc2
    obtain ⟨b2, hb2, hb2m, hb2all⟩ := foldIdxMin_spec (colVals table g c2) (hcv c2 hc2)
    refine ⟨b2.2, ⟨b2.1, by rw [Prod.mk.eta]; exact hb2m⟩, hb2all, ?_⟩
    have := hqmax (c2, b2) (hMP c2 hc2 b2 hb2)
    rw [← hbcq] at this
    exact this

theorem C7_witness :
    (obsRowsIdx c7_table "g" ≠ [] ∧ 0 < 2 ∧
      ∀ p ∈ obsRowsIdx c7_table "g", ∀ c < 2, (p.2.days.getD c none).isSome) ∧
    get_min_idx_value c7_table 2 "g" = some (1, 1, 7) ∧
    (∃ ri c v, get_min_idx_value c7_table 2 "g" = some (ri, c, v) ∧ c < 2 ∧
      (ri, v) ∈ colVals c7_table "g" c ∧
      (∀ q ∈ colVals c7_table "g" c, v ≤ q.2) ∧
      ∀ c2 < 2, ∃ m, (∃ r2, (r2, m) ∈ colVals c7_table "g" c2) ∧
        (∀ q ∈ colVals c7_table "g" c2, m ≤ q.2) ∧ m ≤ v) :=
  ⟨⟨by decide, by decide, by decide⟩, by decide,
   C7_min_idx_two_stage c7_table 2 "g" (by decide) (by decide) (by decide)⟩

theorem fillStat_map_grpcode (N : ℕ) (g s : String) (f : List (Option ℝ) → Option ℝ)
    (t : List (BTRow ℝ)) :
    (fillStat N g s f t).map (fun r => (r.grp, r.code)) =
      t.map (fun r => (r.grp, r.code)) := by
  simp only [fillStat, List.map_map]
  apply List.map_congr_left
  intro r _
  by_cases h : r.grp = g ∧ r.code = s <;> simp [Function.comp, h]

theorem fillStat_fold_map_grpcode (N : ℕ) (g : String)
    (fs : List (String × (List (Option ℝ) → Option ℝ))) :
    ∀ (t : List (BTRow ℝ)),
      (fs.foldl (fun t2 p => fillStat N g p.1 p.2 t2) t).map (fun r => (r.grp, r.code)) =
        t.map (fun r => (r.grp, r.code)) := by
  induction fs with
  | nil => intro t; rfl
  | cons p ps ih =>
    intro t
    rw [List.foldl_cons, ih, fillStat_map_grpcode]

theorem fillStats_map_grpcode (N : ℕ) (groups : List String) :
    ∀ (t : List (BTRow ℝ)),
      (fillStats N groups t).map (fun r => (r.grp, r.code)) =
        t.map (fun r => (r.grp, r.code)) := by
  induction groups with
  | nil => intro t; rfl
  | cons g gs ih =>
    intro t
    unfold fillStats at ih ⊢
    rw [List.foldl_cons, ih, fillStat_fold_map_grpcode]

theorem countP_grp_via_pairs (g : String) (l : List (BTRow ℝ)) :
    l.countP (fun r => decide (r.grp = g)) =
      (l.map (fun r => (r.grp, r.code))).countP (fun q => decide (q.1 = g)) := by
  rw [List.countP_map]
  apply List.countP_congr
  intro r _
  constructor <;> exact id

theorem fillStats_countP_grp (N : ℕ) (groups : List String) (t : List (BTRow ℝ))
    (g : String) :
    (fillStats N groups t).countP (fun r => decide (r.grp = g)) =
      t.countP (fun r => decide (r.grp = g)) := by
  rw [countP_grp_via_pairs, fillStats_map_grpcode, ← countP_grp_via_pairs]

theorem map_code_filter_grp_of_map_eq (t t2 : List (BTRow ℝ))
    (h : t2.map (fun r => (r.grp, r.code)) = t.map (fun r => (r.grp, r.code))) (g : String) :
    (t2.filter (fun r => decide (r.grp = g))).map (fun r => r.code) =
      (t.filter (fun r => decide (r.grp = g))).map (fun r => r.code) := by
  have e1 : ∀ (l : List (BTRow ℝ)),
      (l.filter (fun r => decide (r.grp = g))).map (fun r => r.code) =
        ((l.map (fun r => (r.grp, r.code))).filter (fun q => decide (q.1 = g))).map
          Prod.snd := by
    intro l
    rw [List.filter_map, List.map_map]
    rfl
  rw [e1 t2, e1 t, h]

theorem mem_map_grpcode (t2 t : List (BTRow ℝ))
    (h : t2.map (fun r => (r.grp, r.code)) = t.map (fun r => (r.grp, r.code))) :
    ∀ r ∈ t2, ∃ r0 ∈ t, r0.grp = r.grp ∧ r0.code = r.code := by
  intro r hr
  have hm : (r.grp, r.code) ∈ t.map (fun r => (r.grp, r.code)) := by
    rw [← h]
    exact List.mem_map_of_mem _ hr
  obtain ⟨r0, hr0, he⟩ := List.mem_map.mp hm
  exact ⟨r0, hr0, congrArg Prod.fst he, congrArg Prod.snd he⟩

theorem groupListOf_go_mem :
    ∀ (tl : List (String × ℕ × String)) (acc : List String) (g : String),
      g ∈ tl.foldl (fun gl e => if e.2.2 ∈ gl then gl else gl ++ [e.2.2]) acc ↔
        g ∈ acc ∨ ∃ e ∈ tl, e.2.2 = g := by
  intro tl
  induction tl with
  | nil => intro acc g; simp
  | cons e t ih =>
    intro acc g
    rw [List.foldl_cons]
    by_cases h : e.2.2 ∈ acc
    · rw [if_pos h, ih]
      constructor
      · rintro (ha | ⟨e2, he2, rfl⟩)
        · exact Or.inl ha
        · exact Or.inr ⟨e2, List.mem_cons_of_mem e he2, rfl⟩
      · rintro (ha | ⟨e2, he2, rfl⟩)
        · exact Or.inl ha
        · rcases List.mem_cons.mp he2 with rfl | hm
          · exact Or.inl h
          · exact Or.inr ⟨e2, hm, rfl⟩
    · rw [if_neg h, ih]
      simp only [List.mem_append, List.mem_cons, List.not_mem_nil, or_false]
      constructor
      · rintro ((ha | rfl) | ⟨e2, he2, rfl⟩)
        · exact Or.inl ha
        · exact Or.inr ⟨e, Or.inl rfl, rfl⟩
        · exact Or.inr ⟨e2, Or.inr he2, rfl⟩
      · rintro (ha | ⟨e2, (rfl | hm), rfl⟩)
        · exact Or.inl (Or.inl ha)
        · exact Or.inl (Or.inr rfl)
        · exact Or.inr ⟨e2, hm, rfl⟩

theorem groupListOf_go_nodup :
    ∀ (tl : List (String × ℕ × String)) (acc : List String), acc.Nodup →
      (tl.foldl (fun gl e => if e.2.2 ∈ gl then gl else gl ++ [e.2.2]) acc).Nodup := by
  intro tl
  induction tl with
  | nil => intro acc h; exact h
  | cons e t ih =>
    intro acc h
    rw [List.foldl_cons]
    by_cases hm : e.2.2 ∈ acc
    · rw [if_pos hm]; exact ih acc h
    · rw [if_neg hm]
      apply ih
      rw [List.nodup_append]
      refine ⟨h, List.nodup_singleton _, ?_⟩
      intro a ha hb
      rw [List.mem_singleton] at hb
      subst hb
      exact hm ha

theorem mem_groupListOf (tl : List (String × ℕ × String)) (g : String) :
    g ∈ groupListOf tl ↔ ∃ e ∈ tl, e.2.2 = g := by
  unfold groupListOf
  rw [groupListOf_go_mem]
  simp

theorem groupListOf_nodup (tl : List (String × ℕ × String)) : (groupListOf tl).Nodup :=
  groupListOf_go_nodup tl [] List.nodup_nil

theorem obsRow_grp_code (db : String → ℕ → List (Option ℝ)) (e : String × ℕ × String)
    (r : BTRow ℝ) (h : obsRow db e = some r) : r.grp = e.2.2 ∧ r.code = e.1 := by
  simp only [obsRow] at h
  split_ifs at h
  injection h with h2
  subst h2
  exact ⟨rfl, rfl⟩

theorem obsRow_none_iff (db : String → ℕ → List (Option ℝ)) (e : String × ℕ × String) :
    obsRow db e = none ↔ (db (e.1.take 6) e.2.1).getD 1 none = none := by
  constructor
  · intro hn
    simp only [obsRow] at hn
    split_ifs at hn with h
    exact Option.isNone_iff_eq_none.mp h
  · intro h
    simp only [obsRow]
    rw [if_pos (by rw [h]; rfl)]

theorem obsRow_congr (db db2 : String → ℕ → List (Option ℝ)) (e : String × ℕ × String)
    (h : db2 (e.1.take 6) e.2.1 = db (e.1.take 6) e.2.1) : obsRow db2 e = obsRow db e := by
  unfold obsRow
  rw [h]

theorem filterMap_congr_mem {α β : Type} (f h : α → Option β) :
    ∀ (l : List α), (∀ x ∈ l, f x = h x) → l.filterMap f = l.filterMap h := by
  intro l
  induction l with
  | nil => intro _; rfl
  | cons a t ih =>
    intro hall
    rw [List.filterMap_cons, List.filterMap_cons, hall a (List.mem_cons_self a t),
      ih (fun x hx => hall x (List.mem_cons_of_mem a hx))]

theorem countP_grp_map_normalize (l : List (BTRow ℝ)) (g : String) :
    (l.map normalizeRow).countP (fun r => decide (r.grp = g)) =
      l.countP (fun r => decide (r.grp = g)) := by
  rw [List.countP_map]
  apply List.countP_congr
  intro r _
  constructor <;> intro h <;> exact h

theorem statBlocks_filter (N : ℕ) (g : String) :
    ∀ (groups : List String), groups.Nodup → g ∈ groups →
      (((groups.flatMap (fun g2 => statNames.map (fun s => statRow N g2 s))).map
        normalizeRow).filter (fun r => decide (r.grp = g))).map (fun r => r.code) =
          statNames := by
  intro groups
  induction groups with
  | nil => intro _ h; exact absurd h (List.not_mem_nil g)
  | cons a gs ih =>
    intro hnd hm
    rcases List.nodup_cons.mp hnd with ⟨hna, hnds⟩
    rw [List.flatMap_cons, List.map_append, List.filter_append, List.map_append]
    rcases List.mem_cons.mp hm with rfl | hmem
    · have hblock : ((statNames.map (fun s => statRow N g s)).map normalizeRow).filter
          (fun r => decide (r.grp = g)) =
            (statNames.map (fun s => statRow N g s)).map normalizeRow := by
        rw [List.filter_eq_self]
        intro r hr
        rcases List.mem_map.mp hr with ⟨r0, hr0, rfl⟩
        rcases List.mem_map.mp hr0 with ⟨s, _, rfl⟩
        simp [normalizeRow, statRow]
      have hrest : (((gs.flatMap (fun g2 => statNames.map (fun s => statRow N g2 s))).map
          normalizeRow).filter (fun r => decide (r.grp = g))) = [] := by
        rw [List.filter_eq_nil_iff]
        intro r hr
        rcases List.mem_map.mp hr with ⟨r0, hr0, rfl⟩
        rcases List.mem_flatMap.mp hr0 with ⟨g2, hg2, hr02⟩
        rcases List.mem_map.mp hr02 with ⟨s, _, rfl⟩
        simp only [normalizeRow, statRow, decide_eq_true_eq]
        exact fun hcon => hna (hcon ▸ hg2)
      rw [hblock, hrest]
      simp only [List.map_nil, List.append_nil, List.map_map]
      calc statNames.map ((fun r => BTRow.code r) ∘ normalizeRow ∘ fun s => statRow N g s)
          = statNames.map id := List.map_congr_left (fun s _ => rfl)
        _ = statNames := List.map_id statNames
    · have hag : a ≠ g := fun hcon => hna (hcon ▸ hmem)
      have hblock : ((statNames.map (fun s => statRow N a s)).map normalizeRow).filter
          (fun r => decide (r.grp = g)) = [] := by
        rw [List.filter_eq_nil_iff]
        intro r hr
        rcases List.mem_map.mp hr with ⟨r0, hr0, rfl⟩
        rcases List.mem_map.mp hr0 with ⟨s, _, rfl⟩
        simp only [normalizeRow, statRow, decide_eq_true_eq]
        exact hag
      rw [hblock]
      simp only [List.map_nil, List.nil_append]
      exact ih hnds hmem

theorem obs_part_filter_nil (db : String → ℕ → List (Option ℝ))
    (tl : List (String × ℕ × String)) (g : String)
    (h2 : ∀ e ∈ tl, e.2.2 = g → (db (e.1.take 6) e.2.1).getD 1 none = none) :
    ((tl.filterMap (obsRow db)).map normalizeRow).filter
      (fun r => decide (r.grp = g)) = [] := by
  rw [List.filter_eq_nil_iff]
  intro r hr
  rcases List.mem_map.mp hr with ⟨r0, hr0, rfl⟩
  rcases List.mem_filterMap.mp hr0 with ⟨e, he, hoe⟩
  obtain ⟨hgrp, _⟩ := obsRow_grp_code db e r0 hoe
  simp only [normalizeRow, decide_eq_true_eq]
  intro hg
  have hgg : e.2.2 = g := by rw [← hgrp]; exact hg
  rw [(obsRow_none_iff db e).mpr (h2 e he hgg)] at hoe
  exact Option.noConfusion hoe

theorem obsRow_isSome (db : String → ℕ → List (Option ℝ)) (e : String × ℕ × String)
    (h : (db (e.1.take 6) e.2.1).getD 1 none ≠ none) :
    obsRow db e = some ⟨e.2.2, e.1, some e.2.1, (db (e.1.take 6) e.2.1).getD 0 none,
      (db (e.1.take 6) e.2.1).getD 1 none, some 0, (db (e.1.take 6) e.2.1).drop 2⟩ := by
  simp only [obsRow]
  rw [if_neg (fun hc => h (Option.isNone_iff_eq_none.mp hc))]

/-- Claim C6: an observation whose capture-day price (index 1 of the
fetched forward price list) is missing is excluded entirely from the
result: its group's row count is exactly one less than in a run against a
database in which only that price is patched to a valid number, and (when
its instance id is not shared with another observation or a statistic name)
no row carrying its instance id appears in the result at all. -/
theorem C6_missing_capture_price_skipped (db db2 : String → ℕ → List (Option ℝ))
    (tl1 tl2 : List (String × ℕ × String)) (e : String × ℕ × String) (N : ℕ)
    (hmiss : (db (e.1.take 6) e.2.1).getD 1 none = none)
    (hpatch : (db2 (e.1.take 6) e.2.1).getD 1 none ≠ none)
    (hsame : ∀ e2 ∈ tl1 ++ tl2, db2 (e2.1.take 6) e2.2.1 = db (e2.1.take 6) e2.2.1) :
    (back_test db2 (tl1 ++ e :: tl2) N).result.countP (fun r => decide (r.grp = e.2.2)) =
      (back_test db (tl1 ++ e :: tl2) N).result.countP (fun r => decide (r.grp = e.2.2)) + 1 ∧
    ((∀ e2 ∈ tl1 ++ tl2, e2.1 ≠ e.1) → e.1 ∉ statNames →
      ∀ r ∈ (back_test db (tl1 ++ e :: tl2) N).result, r.code ≠ e.1) := by
  have hsame1 : ∀ e2 ∈ tl1, db2 (e2.1.take 6) e2.2.1 = db (e2.1.take 6) e2.2.1 :=
    fun e2 h2 => hsame e2 (List.mem_append.mpr (Or.inl h2))
  have hsame2 : ∀ e2 ∈ tl2, db2 (e2.1.take 6) e2.2.1 = db (e2.1.take 6) e2.2.1 :=
    fun e2 h2 => hsame e2 (List.mem_append.mpr (Or.inr h2))
  have hF1 : tl1.filterMap (obsRow db2) = tl1.filterMap (obsRow db) :=
    filterMap_congr_mem _ _ tl1 (fun x hx => obsRow_congr db db2 x (hsame1 x hx))
  have hF2 : tl2.filterMap (obsRow db2) = tl2.filterMap (obsRow db) :=
    filterMap_congr_mem _ _ tl2 (fun x hx => obsRow_congr db db2 x (hsame2 x hx))
  have hnone : obsRow db e = none := (obsRow_none_iff db e).mpr hmiss
  have hsome := obsRow_isSome db2 e hpatch
  have hA : (tl1 ++ e :: tl2).filterMap (obsRow db) =
      tl1.filterMap (obsRow db) ++ tl2.filterMap (obsRow db) := by
    rw [List.filterMap_append, List.filterMap_cons, hnone]
  have hA2 : (tl1 ++ e :: tl2).filterMap (obsRow db2) =
      tl1.filterMap (obsRow db) ++
        ((⟨e.2.2, e.1, some e.2.1, (db2 (e.1.take 6) e.2.1).getD 0 none,
          (db2 (e.1.take 6) e.2.1).getD 1 none, some 0,
          (db2 (e.1.take 6) e.2.1).drop 2⟩ : BTRow ℝ) :: tl2.filterMap (obsRow db)) := by
    rw [List.filterMap_append, List.filterMap_cons, hsome, hF1, hF2]
  have hbt : ∀ dbx, (back_test dbx (tl1 ++ e :: tl2) N).result =
      fillStats N (groupListOf (tl1 ++ e :: tl2)) (preTable dbx (tl1 ++ e :: tl2) N) :=
    fun dbx => rfl
  constructor
  · rw [hbt db2, hbt db, fillStats_countP_grp, fillStats_countP_grp]
    unfold preTable
    rw [countP_grp_map_normalize, countP_grp_map_normalize, List.countP_append,
      List.countP_append, hA, hA2, List.countP_append, List.countP_append,
      List.countP_cons]
    simp
    omega
  · intro hcodes hnstat r hr
    rw [hbt db] at hr
    obtain ⟨r0, hr0, _, hcode0⟩ := mem_map_grpcode _ _
      (fillStats_map_grpcode N (groupListOf (tl1 ++ e :: tl2))
        (preTable db (tl1 ++ e :: tl2) N)) r hr
    unfold preTable at hr0
    rcases List.mem_map.mp hr0 with ⟨r1, hr1, rfl⟩
    rcases List.mem_append.mp hr1 with hOb | hSt
    · rcases List.mem_filterMap.mp hOb with ⟨e2, he2, hoe2⟩
      obtain ⟨_, hcode1⟩ := obsRow_grp_code db e2 r1 hoe2
      rw [← hcode0, show (normalizeRow r1).code = r1.code from rfl, hcode1]
      rcases List.mem_append.mp he2 with h1 | h1
      · exact hcodes e2 (List.mem_append.mpr (Or.inl h1))
      · rcases List.mem_cons.mp h1 with rfl | h2
        · rw [hnone] at hoe2
          exact Option.noConfusion hoe2
        · exact hcodes e2 (List.mem_append.mpr (Or.inr h2))
    · rcases List.mem_flatMap.mp hSt with ⟨g2, _, hmem2⟩
      rcases List.mem_map.mp hmem2 with ⟨s, hs, rfl⟩
      rw [← hcode0, show (normalizeRow (statRow N g2 s)).code = s from rfl]
      exact fun hcon => hnstat (hcon ▸ hs)

theorem C6_witness :
    ((c6_db (c6_e.1.take 6) c6_e.2.1).getD 1 none = none ∧
      (c6_db2 (c6_e.1.take 6) c6_e.2.1).getD 1 none ≠ none ∧
      ∀ e2 ∈ ([] : List (String × ℕ × String)) ++ c6_rest,
        c6_db2 (e2.1.take 6) e2.2.1 = c6_db (e2.1.take 6) e2.2.1) ∧
    (back_test c6_db2 ([] ++ c6_e :: c6_rest) 0).result.countP
        (fun r => decide (r.grp = c6_e.2.2)) =
      (back_test c6_db ([] ++ c6_e :: c6_rest) 0).result.countP
        (fun r => decide (r.grp = c6_e.2.2)) + 1 :=
  ⟨⟨rfl, fun hcon => Option.noConfusion hcon,
    by
      intro e2 he2
      simp only [List.nil_append, c6_rest, List.mem_singleton] at he2
      subst he2
      rfl⟩,
   (C6_missing_capture_price_skipped c6_db c6_db2 [] c6_rest c6_e 0 rfl
     (fun hcon => Option.noConfusion hcon)
     (by
       intro e2 he2
       simp only [List.nil_append, c6_rest, List.mem_singleton] at he2
       subst he2
       rfl)).1⟩

theorem c1G_gt_one : (1 : ℝ) < c1G := by
  unfold c1G
  rw [← Real.log_mul (by norm_num) (by norm_num), ← Real.log_mul (by norm_num) (by norm_num),
    ← Real.log_mul (by norm_num) (by norm_num)]
  have harg : (11 / 10 * (6 / 5) * (9 / 10) * (16 / 15) : ℝ) = 792 / 625 := by norm_num
  rw [harg]
  have hlog : 0 < Real.log (792 / 625) := Real.log_pos (by norm_num)
  calc (1 : ℝ) = Real.exp 0 := Real.exp_zero.symm
    _ < Real.exp (Real.log (792 / 625) / 4) := Real.exp_lt_exp.mpr (by positivity)

theorem c1G_lt : c1G < 16 / 15 := by
  unfold c1G
  rw [← Real.log_mul (by norm_num) (by norm_num), ← Real.log_mul (by norm_num) (by norm_num),
    ← Real.log_mul (by norm_num) (by norm_num)]
  have harg : (11 / 10 * (6 / 5) * (9 / 10) * (16 / 15) : ℝ) = 792 / 625 := by norm_num
  rw [harg]
  rw [show (16 : ℝ) / 15 = Real.exp (Real.log (16 / 15)) from (Real.exp_log (by norm_num)).symm]
  apply Real.exp_lt_exp.mpr
  rw [div_lt_iff (by norm_num : (0 : ℝ) < 4)]
  rw [show Real.log ((16 : ℝ) / 15) * 4 = Real.log (((16 : ℝ) / 15) ^ 4) by
    rw [Real.log_pow]; push_cast; ring]
  apply Real.log_lt_log (by norm_num)
  norm_num

theorem c1S_nonneg : 0 ≤ c1S := Real.sqrt_nonneg _

theorem c1S_le : c1S ≤ 3 / 10 := by
  have hG1 := c1G_gt_one
  have hG2 := c1G_lt
  unfold c1S
  rw [show (3 : ℝ) / 10 = Real.sqrt ((3 / 10) ^ 2) from (Real.sqrt_sq (by norm_num)).symm]
  apply Real.sqrt_le_sqrt
  unfold c1Mu
  nlinarith [sq_nonneg (c1G - 1), sq_nonneg (c1G - 16 / 15), sq_nonneg (c1G - 17 / 16)]

theorem c1_median_eval :
    nanmedian [some (11 / 10 : ℝ), some (6 / 5), some (9 / 10), some (16 / 15), some c1G,
      some c1S, none] = some ((c1G + 16 / 15) / 2) := by
  have hG1 := c1G_gt_one
  have hG2 := c1G_lt
  have hS3 := c1S_le
  have h1 : ([(11 / 10 : ℝ), 6 / 5, 9 / 10, 16 / 15, c1G, c1S]).Perm
      (c1S :: [11 / 10, 6 / 5, 9 / 10, 16 / 15, c1G]) := by
    simpa using (@List.perm_middle ℝ c1S [11 / 10, 6 / 5, 9 / 10, 16 / 15, c1G] [])
  have h2 : ([(11 / 10 : ℝ), 6 / 5, 9 / 10, 16 / 15, c1G]).Perm
      ((9 / 10 : ℝ) :: [11 / 10, 6 / 5, 16 / 15, c1G]) := by
    simpa using (@List.perm_middle ℝ (9 / 10) [11 / 10, 6 / 5] [16 / 15, c1G])
  have h3 : ([(11 / 10 : ℝ), 6 / 5, 16 / 15, c1G]).Perm (c1G :: [11 / 10, 6 / 5, 16 / 15]) := by
    simpa using (@List.perm_middle ℝ c1G [11 / 10, 6 / 5, 16 / 15] [])
  have h4 : ([(11 / 10 : ℝ), 6 / 5, 16 / 15]).Perm ((16 / 15 : ℝ) :: [11 / 10, 6 / 5]) := by
    simpa using (@List.perm_middle ℝ (16 / 15) [11 / 10, 6 / 5] [])
  have hperm : ([(11 / 10 : ℝ), 6 / 5, 9 / 10, 16 / 15, c1G, c1S]).Perm
      [c1S, 9 / 10, c1G, 16 / 15, 11 / 10, 6 / 5] :=
    h1.trans (List.Perm.cons c1S (h2.trans (List.Perm.cons (9 / 10)
      (h3.trans (List.Perm.cons c1G h4)))))
  have hsorted : List.Sorted (· ≤ ·) [c1S, (9 / 10 : ℝ), c1G, 16 / 15, 11 / 10, 6 / 5] := by
    rw [List.Sorted, ← List.chain'_iff_pairwise]
    simp only [List.chain'_cons, List.chain'_singleton, and_true]
    refine ⟨by linarith, by linarith, by linarith, by norm_num, by norm_num⟩
  have hsort_eq : (([(11 / 10 : ℝ), 6 / 5, 9 / 10, 16 / 15, c1G, c1S]).insertionSort (· ≤ ·)) =
      [c1S, 9 / 10, c1G, 16 / 15, 11 / 10, 6 / 5] :=
    List.eq_of_perm_of_sorted ((List.perm_insertionSort _ _).trans hperm)
      (List.sorted_insertionSort _ _) hsorted
  have hpv : ([some (11 / 10 : ℝ), some (6 / 5), some (9 / 10), some (16 / 15), some c1G,
      some c1S, none].filterMap id) = [(11 / 10 : ℝ), 6 / 5, 9 / 10, 16 / 15, c1G, c1S] := rfl
  simp only [nanmedian, presentVals, hpv, hsort_eq]
  norm_num

theorem c1_stage0 : preTable c1_db c1_test_list 0 = c1_T0 := by
  have hskel : preTable c1_db c1_test_list 0 =
      [normalizeRow ⟨"A", "P1", some 0, some 100, some 110, some 0, []⟩,
       normalizeRow ⟨"A", "P2", some 1, some 100, some 120, some 0, []⟩,
       normalizeRow ⟨"A", "P3", some 2, some 100, some 90, some 0, []⟩,
       normalizeRow ⟨"A", "mean", none, none, none, none, []⟩,
       normalizeRow ⟨"A", "g_mean", none, none, none, none, []⟩,
       normalizeRow ⟨"A", "stddev", none, none, none, none, []⟩,
       normalizeRow ⟨"A", "median", none, none, none, none, []⟩] := rfl
  rw [hskel]
  unfold c1_T0
  norm_num [normalizeRow, divOpt]

theorem c1_stage1 : fillStat 0 "A" "mean" nanmean c1_T0 = c1_T1 := by
  have hcol : (c1_T0.filter (fun r => decide (r.grp = "A"))).map (fun r => colOf 0 r 0) =
      [some (11 / 10 : ℝ), some (6 / 5), some (9 / 10), none, none, none, none] := by
    norm_num [c1_T0, colOf]
  have hagg : nanmean [some (11 / 10 : ℝ), some (6 / 5), some (9 / 10), none, none, none,
      none] = some (16 / 15) := by
    norm_num [nanmean, presentVals, List.filterMap_cons]
  simp only [fillStat, List.range_zero, List.map_nil, hcol, hagg]
  norm_num [c1_T0, c1_T1]
  simp

theorem c1_stage2 : fillStat 0 "A" "g_mean" nangmean c1_T1 = c1_T2 := by
  have hcol : (c1_T1.filter (fun r => decide (r.grp = "A"))).map (fun r => colOf 0 r 0) =
      [some (11 / 10 : ℝ), some (6 / 5), some (9 / 10), some (16 / 15), none, none, none] := by
    norm_num [c1_T1, colOf]
  have hagg : nangmean [some (11 / 10 : ℝ), some (6 / 5), some (9 / 10), some (16 / 15),
      none, none, none] = some c1G := by
    norm_num [nangmean, presentVals, List.filterMap_cons, List.filter_cons, c1G]
    ring_nf
  simp only [fillStat, List.range_zero, List.map_nil, hcol, hagg]
  norm_num [c1_T1, c1_T2]
  simp

theorem c1_stage3 : fillStat 0 "A" "stddev" nanstd c1_T2 = c1_T3 := by
  have hcol : (c1_T2.filter (fun r => decide (r.grp = "A"))).map (fun r => colOf 0 r 0) =
      [some (11 / 10 : ℝ), some (6 / 5), some (9 / 10), some (16 / 15), some c1G, none,
       none] := by
    norm_num [c1_T2, colOf]
  have hagg : nanstd [some (11 / 10 : ℝ), some (6 / 5), some (9 / 10), some (16 / 15),
      some c1G, none, none] = some c1S := by
    norm_num [nanstd, presentVals, List.filterMap_cons, c1S, c1Mu]
    congr 1
    ring_nf
  simp only [fillStat, List.range_zero, List.map_nil, hcol, hagg]
  norm_num [c1_T2, c1_T3]
  simp

theorem c1_stage4 : fillStat 0 "A" "median" nanmedian c1_T3 = c1_T4 := by
  have hcol : (c1_T3.filter (fun r => decide (r.grp = "A"))).map (fun r => colOf 0 r 0) =
      [some (11 / 10 : ℝ), some (6 / 5), some (9 / 10), some (16 / 15), some c1G, some c1S,
       none] := by
    norm_num [c1_T3, colOf]
  have hagg := c1_median_eval
  simp only [fillStat, List.range_zero, List.map_nil, hcol, hagg]
  norm_num [c1_T3, c1_T4]
  simp

theorem c1_find_rows :
    findRow c1_T4 "A" "mean" = some ⟨"A", "mean", none, none, none, some (16 / 15), []⟩ ∧
    findRow c1_T4 "A" "median" =
      some ⟨"A", "median", none, none, none, some ((c1G + 16 / 15) / 2), []⟩ := by
  constructor <;> norm_num [c1_T4, findRow, List.find?] <;> simp

/-- Claim C1 (evidence of the code bug): in the three-observation scenario
(captured ratios 1.10, 1.20, 0.90 in group A), back_test's mean row does
hold 16/15 = 1.0667 in the captured column (the mean is filled first, and
the nan-aware mean ignores the still-blank statistic rows), but its median
row holds (g + 16/15)/2 < 1.1 - the median of the three observations
TOGETHER WITH the previously filled mean, g_mean and stddev rows - not the
1.10 the claim states.  The statistic fill of line 116 aggregates over
`result.loc[gc, days]`, which includes the statistic rows already filled by
earlier iterations, so the result depends on the fill order. -/
theorem C1_median_statistic_contaminated :
    findRow (back_test c1_db c1_test_list 0).result "A" "mean" =
      some ⟨"A", "mean", none, none, none, some (16 / 15), []⟩ ∧
    findRow (back_test c1_db c1_test_list 0).result "A" "median" =
      some ⟨"A", "median", none, none, none, some ((c1G + 16 / 15) / 2), []⟩ ∧
    (c1G + 16 / 15) / 2 < 11 / 10 := by
  have h0 : (back_test c1_db c1_test_list 0).result =
      fillStat 0 "A" "median" nanmedian (fillStat 0 "A" "stddev" nanstd
        (fillStat 0 "A" "g_mean" nangmean (fillStat 0 "A" "mean" nanmean
          (preTable c1_db c1_test_list 0)))) := rfl
  have hres : (back_test c1_db c1_test_list 0).result = c1_T4 := by
    rw [h0, c1_stage0, c1_stage1, c1_stage2, c1_stage3, c1_stage4]
  refine ⟨?_, ?_, ?_⟩
  · rw [hres]
    exact c1_find_rows.1
  · rw [hres]
    exact c1_find_rows.2
  · have := c1G_lt
    linarith

/-- Claim C10: a group whose every observation is skipped for a missing
capture-day price still appears in the group list (the group label is
recorded before the missing-price check) and still receives exactly the
four statistic rows mean, g_mean, stddev, median - and no observation
rows. -/
theorem C10_empty_group_stat_rows (db : String → ℕ → List (Option ℝ))
    (tl : List (String × ℕ × String)) (N : ℕ) (g : String)
    (h1 : ∃ e ∈ tl, e.2.2 = g)
    (h2 : ∀ e ∈ tl, e.2.2 = g → (db (e.1.take 6) e.2.1).getD 1 none = none) :
    g ∈ (back_test db tl N).groups ∧
    ((back_test db tl N).result.filter (fun r => decide (r.grp = g))).map
      (fun r => r.code) = statNames := by
  constructor
  · show g ∈ groupListOf tl
    exact (mem_groupListOf tl g).mpr h1
  · show ((fillStats N (groupListOf tl) (preTable db tl N)).filter
      (fun r => decide (r.grp = g))).map (fun r => r.code) = statNames
    rw [map_code_filter_grp_of_map_eq (preTable db tl N) _
      (fillStats_map_grpcode N (groupListOf tl) (preTable db tl N)) g]
    unfold preTable
    rw [List.map_append, List.filter_append, List.map_append]
    rw [obs_part_filter_nil db tl g h2]
    rw [show (([] : List (BTRow ℝ)).map (fun r => r.code)) = [] from rfl, List.nil_append]
    exact statBlocks_filter N g (groupListOf tl) (groupListOf_nodup tl)
      ((mem_groupListOf tl g).mpr h1)

theorem C10_witness :
    ((∃ e ∈ c10_test_list, e.2.2 = "G") ∧
      ∀ e ∈ c10_test_list, e.2.2 = "G" →
        (c10_db (e.1.take 6) e.2.1).getD 1 none = none) ∧
    "G" ∈ (back_test c10_db c10_test_list 3).groups ∧
    ((back_test c10_db c10_test_list 3).result.filter
      (fun r => decide (r.grp = "G"))).map (fun r => r.code) = statNames :=
  ⟨⟨⟨("S1", 0, "G"), by decide, rfl⟩,
    by
      intro e he hg
      simp only [c10_test_list, List.mem_singleton] at he
      subst he
      rfl⟩,
   C10_empty_group_stat_rows c10_db c10_test_list 3 "G"
     ⟨("S1", 0, "G"), by decide, rfl⟩
     (by
       intro e he hg
       simp only [c10_test_list, List.mem_singleton] at he
       subst he
       rfl)⟩

end Trader
